import Mathlib

/-!
Verification development for the Mlocker secret-lifecycle engine
(`allocator.go`, `zero.go`, `mlocker.go`, `crypto.go`, `buffer.go`).

The Go code is shallowly embedded as explicit state passing over a `World`
that records every locked allocation the process performed.  Machine
addresses are abstracted as indices into the world's cell list; a Go
`*LockedBuffer` is an `Option Nat` (`none` is the nil pointer) and the
`ptr != nil` test of the source corresponds to the cell's `live` flag,
which `freeLocked` clears exactly where the source clears `b.ptr`.

External collaborators (the Go standard library's AES-256-GCM and
HMAC-SHA256, and the OS CSPRNG) are parameters: an `Oracle` decides the
outcome of each allocation / random fill, and a `CryptoModel` supplies the
seal/open/mac functions together with the standard AEAD laws the library
relies on (16-byte overhead, open inverts seal, 32-byte mac output).
-/

namespace Mlocker

/-- Byte strings.  Go byte slices are modelled as lists of naturals. -/
abbrev Bytes := List Nat

/-- One locked allocation (`LockedBuffer` backing region in `allocator.go`).
`content` is the region's bytes; `live` is `ptr != nil` of the Go struct. -/
structure LockedCell where
  content : Bytes
  live : Bool
  deriving DecidableEq, Repr

/-- A Go `*LockedBuffer`: `none` is the nil pointer, `some i` points at the
`i`-th allocation the process ever made. -/
abbrev LockedBuffer := Option Nat

/-- Process state: every allocation ever made (freed cells stay in the list
with `live = false`), the allocation and random-fill call counters used to
consult the oracle, the master-key binding of `mlocker.go` (`masterKey` /
`masterBuf` are set together, so a single handle suffices) and the
`sync.Once` latch. -/
structure World where
  cells : List LockedCell
  allocN : Nat
  randN : Nat
  masterIdx : Option Nat
  onceDone : Bool
  deriving DecidableEq, Repr

/-- The package-level configuration flags of `mlocker.go`. -/
structure Config where
  zeroPlaintext : Bool
  integrityCheck : Bool
  deriving DecidableEq, Repr

/-- Environment oracle: `allocOk n` decides whether the `n`-th
mmap+mlock pair succeeds, `randOk n` whether the `n`-th CSPRNG read
succeeds, and `randAt n j` is the `j`-th byte produced by the `n`-th read. -/
structure Oracle where
  allocOk : Nat → Bool
  randOk : Nat → Bool
  randAt : Nat → Nat → Nat

/-- Unified error kinds (section 7 of the design; Go uses wrapped errors). -/
inductive Err where
  | invalidSize
  | lockFailed
  | randomFailed
  | integrityFailed
  | useAfterDestroy
  | nilFunction
  | nilInput
  | aeadFailed
  | decryptFailed
  deriving DecidableEq, Repr

/-! ### Byte-range primitives

Go writes through sub-slices of a region; we model a write of `v` at
offset `off` of a region `l` (`copy(l[off:off+len(v)], v)` where `v`
always fits) and the sub-slice view `l[off : off+n]`. -/

/-- In-place write of `v` into `l` at offset `off` (the write always fits
in this program). -/
def writeAt (l : Bytes) (off : Nat) (v : Bytes) : Bytes :=
  l.take off ++ v ++ l.drop (off + v.length)

/-- The sub-slice view `l[off : off+n]`. -/
def readAt (l : Bytes) (off n : Nat) : Bytes :=
  (l.drop off).take n

/-! ### World primitives -/

/-- Cell lookup. -/
def getCell (w : World) (i : Nat) : Option LockedCell :=
  w.cells.get? i

/-- Model of `LockedBuffer.Bytes` (`allocator.go` lines 19-24): nil handle or
cleared pointer yields the nil slice. -/
def BytesView (w : World) (b : LockedBuffer) : Bytes :=
  match b with
  | none => []
  | some i =>
    match getCell w i with
    | none => []
    | some c => if c.live then c.content else []

/-- Replace cell `i`. -/
def setCell (w : World) (i : Nat) (c : LockedCell) : World :=
  { w with cells := w.cells.set i c }

/-- Write `v` at offset `off` of the region behind handle `b`
(a Go write through a sub-slice of `b.Bytes()`). -/
def writeRange (w : World) (b : LockedBuffer) (off : Nat) (v : Bytes) : World :=
  match b with
  | none => w
  | some i =>
    match getCell w i with
    | none => w
    | some c => if c.live then setCell w i ⟨writeAt c.content off v, true⟩ else w

/-- Read the sub-slice `b.Bytes()[off : off+n]`. -/
def readRange (w : World) (b : LockedBuffer) (off n : Nat) : Bytes :=
  readAt (BytesView w b) off n

/-- Model of `AllocateLocked` / `allocateLocked` (`allocator.go` lines 41-56):
non-positive sizes are rejected before any syscall; otherwise the oracle
decides whether mmap+lock succeeds.  Fresh anonymous pages are zeroed.
On success the new handle is the next cell index. -/
def AllocateLocked (O : Oracle) (size : Nat) (w : World) :
    Except Err Nat × World :=
  if size ≤ 0 then (Except.error Err.invalidSize, w)
  else if O.allocOk w.allocN then
    (Except.ok w.cells.length,
      { w with cells := w.cells ++ [⟨List.replicate size 0, true⟩],
               allocN := w.allocN + 1 })
  else (Except.error Err.lockFailed, { w with allocN := w.allocN + 1 })

/-- Model of `FreeLocked` / `freeLocked` (`allocator.go` lines 58-72): nil or
already-cleared handles are a success no-op; otherwise the region is
zeroized and then unmapped (the pointer is cleared).  Unlock/unmap are
modelled as succeeding; the wipe-before-release order is kept by the
freed cell retaining its zeroed length. -/
def FreeLocked (b : LockedBuffer) (w : World) : Option Err × World :=
  match b with
  | none => (none, w)
  | some i =>
    match getCell w i with
    | none => (none, w)
    | some c =>
      if c.live then
        (none, setCell w i ⟨List.replicate c.content.length 0, false⟩)
      else (none, w)

/-- Model of `ZeroLocked` (`allocator.go` lines 34-39): no-op on nil or cleared
handles, otherwise overwrites the whole region with zeroes. -/
def ZeroLocked (b : LockedBuffer) (w : World) : World :=
  match b with
  | none => w
  | some i =>
    match getCell w i with
    | none => w
    | some c =>
      if c.live then setCell w i ⟨List.replicate c.content.length 0, true⟩
      else w

/-- The `n` bytes produced by the oracle's `k`-th CSPRNG read. -/
def rndB (O : Oracle) (k n : Nat) : Bytes :=
  (List.range n).map fun j => O.randAt k j % 256

/-- Model of `internal.FillRandom` applied to the sub-slice
`b.Bytes()[off : off+n]` (`part_000`): the empty slice is a success
no-op, otherwise the oracle decides success and supplies the bytes. -/
def fillRandomRange (O : Oracle) (b : LockedBuffer) (off n : Nat) (w : World) :
    Option Err × World :=
  if n = 0 then (none, w)
  else if O.randOk w.randN then
    (none, { writeRange w b off (rndB O w.randN n) with randN := w.randN + 1 })
  else (some Err.randomFailed, { w with randN := w.randN + 1 })

/-- Model of `masterKeyBytes` (`mlocker.go` lines 54-61): nil when the master key
is unset (Go returns a nil slice, i.e. the empty byte string). -/
def masterKeyBytes (w : World) : Bytes :=
  match w.masterIdx with
  | none => []
  | some i => BytesView w (some i)

/-- Model of `Init` (`mlocker.go` lines 22-39).  `sync.Once` runs the body only the
first time; later calls return the zero error even if the first body
failed — the latch is consumed regardless of outcome. -/
def Init (O : Oracle) (w : World) : Option Err × World :=
  if w.onceDone then (none, w)
  else
    let w := { w with onceDone := true }
    match AllocateLocked O 32 w with
    | (Except.error e, w) => (some e, w)
    | (Except.ok i, w) =>
      match fillRandomRange O (some i) 0 32 w with
      | (some e, w) =>
        let r := FreeLocked (some i) w
        (some e, r.2)
      | (none, w) => (none, { w with masterIdx := some i })

/-! ### Cryptographic primitives (external collaborators)

`crypto.go` / `part_001` wrap the Go standard library's AES-256-GCM and
HMAC-SHA256.  Their mathematical behaviour is a parameter: a
`CryptoModel` supplies the functions together with the standard laws the
library relies on (sealing appends a 16-byte tag, open inverts seal, the
mac is 32 bytes). -/

structure CryptoModel where
  /-- `h.Sum` of an HMAC-SHA256 keyed with `key` over message `msg`. -/
  hmacF : Bytes → Bytes → Bytes
  /-- AES-256-GCM `Seal` with empty associated data: key, nonce,
  plaintext to ciphertext-with-tag. -/
  sealF : Bytes → Bytes → Bytes → Bytes
  /-- AES-256-GCM `Open` with empty associated data. -/
  openF : Bytes → Bytes → Bytes → Option Bytes
  hmac_len : ∀ k m, (hmacF k m).length = 32
  seal_len : ∀ k n p, (sealF k n p).length = p.length + 16
  open_seal : ∀ k n p, openF k n (sealF k n p) = some p

/-- Struct sizes that `allocateToLocked` obtains from
`reflect.Type.Size()`; machine-dependent and unobservable in this model,
abstracted as fixed positive constants (chosen small so that concrete
runs stay cheap to evaluate). -/
def sha256StateSize : Nat := 2

/-- Size of Go's `hmac` struct (see `sha256StateSize`). -/
def hmacStructSize : Nat := 2

/-- Size of Go's `aes` cipher struct (see `sha256StateSize`). -/
def aesStateSize : Nat := 2

/-- Size of Go's `gcm` struct (see `sha256StateSize`). -/
def gcmStateSize : Nat := 2

/-- A `lockedHMAC` (`part_001` lines 128-195): the key, the message
written so far, and the three locked cells holding the relocated
`macBuf` / `innerBuf` / `outerBuf` state. -/
structure HmacH where
  key : Bytes
  msg : Bytes
  macBuf : Nat
  innerBuf : Nat
  outerBuf : Nat

/-- Model of `newHMAC` (`part_001` lines 156-195): three `allocateToLocked` calls
(inner state, outer state, the hmac struct itself); each failure frees
the buffers acquired so far, in the source's order.  The relocated
struct bytes are opaque machine state, modelled as the zeroes the fresh
cells already hold. -/
def newHMAC (O : Oracle) (key : Bytes) (w : World) :
    Except Err HmacH × World :=
  match AllocateLocked O sha256StateSize w with
  | (Except.error e, w) => (Except.error e, w)
  | (Except.ok ib, w) =>
    match AllocateLocked O sha256StateSize w with
    | (Except.error e, w) =>
      let r := FreeLocked (some ib) w
      (Except.error e, r.2)
    | (Except.ok ob, w) =>
      match AllocateLocked O hmacStructSize w with
      | (Except.error e, w) =>
        let r := FreeLocked (some ib) w
        let r2 := FreeLocked (some ob) r.2
        (Except.error e, r2.2)
      | (Except.ok mb, w) => (Except.ok ⟨key, [], mb, ib, ob⟩, w)

/-- Model of `lockedHMAC.Write`. -/
def hWrite (h : HmacH) (b : Bytes) : HmacH :=
  { h with msg := h.msg ++ b }

/-- Model of `lockedHMAC.Sum`: the HMAC of everything written so far. -/
def hSum (M : CryptoModel) (h : HmacH) : Bytes :=
  M.hmacF h.key h.msg

/-- Model of `lockedHMAC.Destroy` (`part_001` lines 141-154): wipe the hash state,
then free `macBuf`, `innerBuf`, `outerBuf` in that order. -/
def hDestroy (h : HmacH) (w : World) : Option Err × World :=
  let r1 := FreeLocked (some h.macBuf) w
  let r2 := FreeLocked (some h.innerBuf) r1.2
  let r3 := FreeLocked (some h.outerBuf) r2.2
  (none, r3.2)

/-- A `lockedAEAD` (`part_001` lines 39-65): the captured key plus the two
locked cells holding the relocated block-cipher and GCM state. -/
structure AeadH where
  key : Bytes
  blockBuf : Nat
  aeadBuf : Nat

/-- Model of `newAEAD` (`part_001` lines 67-96): `aes.NewCipher` rejects keys whose
length is not 16, 24 or 32; then two `allocateToLocked` calls (block
state, GCM state), the second failure freeing the first buffer.
`cipher.NewGCM` never fails for an AES block. -/
def newAEAD (O : Oracle) (key : Bytes) (w : World) :
    Except Err AeadH × World :=
  if key.length = 16 ∨ key.length = 24 ∨ key.length = 32 then
    match AllocateLocked O aesStateSize w with
    | (Except.error e, w) => (Except.error e, w)
    | (Except.ok bb, w) =>
      match AllocateLocked O gcmStateSize w with
      | (Except.error e, w) =>
        let r := FreeLocked (some bb) w
        (Except.error e, r.2)
      | (Except.ok gb, w) => (Except.ok ⟨key, bb, gb⟩, w)
  else (Except.error Err.aeadFailed, w)

/-- Model of `gcm.Overhead()`: the 16-byte GCM tag. -/
def aOverhead : Nat := 16

/-- Model of `lockedAEAD.Seal`. -/
def aSeal (M : CryptoModel) (a : AeadH) (nonce pt : Bytes) : Bytes :=
  M.sealF a.key nonce pt

/-- Model of `lockedAEAD.Open`. -/
def aOpen (M : CryptoModel) (a : AeadH) (nonce ct : Bytes) : Option Bytes :=
  M.openF a.key nonce ct

/-- Model of `lockedAEAD.Destroy` (`part_001` lines 54-65): wipe the cipher state,
then free `aeadBuf` then `blockBuf`. -/
def aDestroy (a : AeadH) (w : World) : Option Err × World :=
  let r1 := FreeLocked (some a.aeadBuf) w
  let r2 := FreeLocked (some a.blockBuf) r1.2
  (none, r2.2)

/-! ### The SecureBuffer envelope (`buffer.go`) -/

/-- Envelope layout constants (`buffer.go` lines 24-28). -/
def saltLen : Nat := 16

/-- Nonce length (`buffer.go`). -/
def nonceLen : Nat := 12

/-- HMAC tag length (`buffer.go`). -/
def macLen : Nat := 32

/-- Model of `SecureBuffer` (`buffer.go` lines 14-22).  The `salt` / `nonce` /
`ciphertext` / `mac` fields are Go slices into the `mem` region; their
byte values are stored (the region is not written between construction
and destruction).  `timerArmed` abstracts the `*time.Timer`. -/
structure SecureBuffer where
  mem : LockedBuffer
  salt : Bytes
  nonce : Bytes
  ciphertext : Bytes
  mac : Bytes
  timerArmed : Bool
  destroyed : Bool
  deriving DecidableEq, Repr

/-- Model of `EncryptToMemory` (`buffer.go` lines 34-144), step for step.  Besides
the Go result it returns the final content of the caller's `data` slice,
which the source wipes with `Zero(data)` immediately after copying it
into the locked region — unconditionally, before `ZeroPlaintext` is ever
consulted. -/
def EncryptToMemory (C : Config) (M : CryptoModel) (O : Oracle)
    (data : Bytes) (w0 : World) :
    Except Err SecureBuffer × Bytes × World :=
  match (if w0.masterIdx = none then Init O w0 else (none, w0)) with
  | (some e, w) => (Except.error e, data, w)
  | (none, w) =>
    match AllocateLocked O data.length w with
    | (Except.error e, w) => (Except.error e, data, w)
    | (Except.ok pt, w) =>
      let w := writeRange w (some pt) 0 data
      let dataZ : Bytes := List.replicate data.length 0
      match AllocateLocked O saltLen w with
      | (Except.error e, w) => (Except.error e, dataZ, w)
      | (Except.ok saltB, w) =>
        match fillRandomRange O (some saltB) 0 saltLen w with
        | (some e, w) =>
          let r := FreeLocked (some saltB) w
          (Except.error e, dataZ, r.2)
        | (none, w) =>
          match newHMAC O (masterKeyBytes w) w with
          | (Except.error e, w) =>
            let r := FreeLocked (some saltB) w
            (Except.error e, dataZ, r.2)
          | (Except.ok h, w) =>
            let h := hWrite h (BytesView w (some saltB))
            match AllocateLocked O 32 w with
            | (Except.error e, w) =>
              let r := FreeLocked (some saltB) w
              let r2 := hDestroy h r.2
              (Except.error e, dataZ, r2.2)
            | (Except.ok dkB, w) =>
              let dk := hSum M h
              let w := writeRange w (some dkB) 0 dk
              let r := hDestroy h w
              let w := r.2
              match newAEAD O dk w with
              | (Except.error e, w) =>
                let r := FreeLocked (some saltB) w
                let w := ZeroLocked (some dkB) r.2
                let r2 := FreeLocked (some dkB) w
                (Except.error e, dataZ, r2.2)
              | (Except.ok aead, w) =>
                let ctLen := data.length + aOverhead
                let total := saltLen + nonceLen + ctLen
                let total := if C.integrityCheck then total + macLen else total
                match AllocateLocked O total w with
                | (Except.error e, w) =>
                  let r := FreeLocked (some saltB) w
                  let w := ZeroLocked (some dkB) r.2
                  let r2 := FreeLocked (some dkB) w
                  (Except.error e, dataZ, r2.2)
                | (Except.ok buf, w) =>
                  let w := writeRange w (some buf) 0 (BytesView w (some saltB))
                  let w := ZeroLocked (some saltB) w
                  let r := FreeLocked (some saltB) w
                  let w := r.2
                  match fillRandomRange O (some buf) saltLen nonceLen w with
                  | (some e, w) =>
                    let r := FreeLocked (some buf) w
                    let w := ZeroLocked (some dkB) r.2
                    let r2 := FreeLocked (some dkB) w
                    (Except.error e, dataZ, r2.2)
                  | (none, w) =>
                    let nonceV := readRange w (some buf) saltLen nonceLen
                    let ct := aSeal M aead nonceV (BytesView w (some pt))
                    let w := writeRange w (some buf) (saltLen + nonceLen) ct
                    let r := aDestroy aead w
                    let w := ZeroLocked (some pt) r.2
                    let r2 := FreeLocked (some pt) w
                    let w := r2.2
                    -- common tail after the optional mac step
                    let fin := fun (w : World) =>
                      let w := ZeroLocked (some dkB) w
                      let r := FreeLocked (some dkB) w
                      let w := r.2
                      let sb : SecureBuffer :=
                        { mem := some buf
                          salt := readRange w (some buf) 0 saltLen
                          nonce := readRange w (some buf) saltLen nonceLen
                          ciphertext := readRange w (some buf) (saltLen + nonceLen) ctLen
                          mac := if C.integrityCheck then
                                   readRange w (some buf) (saltLen + nonceLen + ctLen) macLen
                                 else []
                          timerArmed := false
                          destroyed := false }
                      (Except.ok sb, dataZ, w)
                    if C.integrityCheck then
                      match newHMAC O dk w with
                      | (Except.error e, w) =>
                        let r := FreeLocked (some buf) w
                        let w := ZeroLocked (some dkB) r.2
                        let r2 := FreeLocked (some dkB) w
                        (Except.error e, dataZ, r2.2)
                      | (Except.ok h2, w) =>
                        let h2 := hWrite h2 (readRange w (some buf) saltLen nonceLen)
                        let h2 := hWrite h2 (readRange w (some buf) (saltLen + nonceLen) ctLen)
                        let w := writeRange w (some buf) (saltLen + nonceLen + ctLen) (hSum M h2)
                        let r := hDestroy h2 w
                        fin r.2
                    else fin w

/-- Model of `EncryptLocked` (`buffer.go` lines 149-158): nil input is rejected;
otherwise the underlying slice is handed to `EncryptToMemory`, whose
internal `Zero(data)` writes through to the locked source region
(modelled by writing the returned slice content back into the cell);
afterwards `ZeroPlaintext` triggers an additional `ZeroLocked`. -/
def EncryptLocked (C : Config) (M : CryptoModel) (O : Oracle)
    (data : LockedBuffer) (w : World) :
    Except Err SecureBuffer × World :=
  match data with
  | none => (Except.error Err.nilInput, w)
  | some i =>
    match EncryptToMemory C M O (BytesView w (some i)) w with
    | (res, dataAfter, w) =>
      let w := writeRange w (some i) 0 dataAfter
      let w := if C.zeroPlaintext then ZeroLocked (some i) w else w
      (res, w)

/-- Model of `Decrypt` (`buffer.go` lines 161-217).  On success the returned handle
views exactly the recovered plaintext (the source truncates the region's
logical length to `len(decrypted)`; the model stores the truncated
view). -/
def Decrypt (C : Config) (M : CryptoModel) (O : Oracle)
    (s : SecureBuffer) (w : World) : Except Err Nat × World :=
  if s.destroyed then (Except.error Err.useAfterDestroy, w)
  else
    match newHMAC O (masterKeyBytes w) w with
    | (Except.error e, w) => (Except.error e, w)
    | (Except.ok h, w) =>
      let h := hWrite h s.salt
      match AllocateLocked O 32 w with
      | (Except.error e, w) =>
        let r := hDestroy h w
        (Except.error e, r.2)
      | (Except.ok dkB, w) =>
        let dk := hSum M h
        let w := writeRange w (some dkB) 0 dk
        let r := hDestroy h w
        let w := r.2
        let afterIntegrity : Except Err Unit × World :=
          if C.integrityCheck then
            match newHMAC O dk w with
            | (Except.error e, w) =>
              let w := ZeroLocked (some dkB) w
              let r := FreeLocked (some dkB) w
              (Except.error e, r.2)
            | (Except.ok h2, w) =>
              let h2 := hWrite (hWrite h2 s.nonce) s.ciphertext
              if hSum M h2 = s.mac then
                let r := hDestroy h2 w
                (Except.ok (), r.2)
              else
                let w := ZeroLocked (some dkB) w
                let r := FreeLocked (some dkB) w
                let r2 := hDestroy h2 r.2
                (Except.error Err.integrityFailed, r2.2)
          else (Except.ok (), w)
        match afterIntegrity with
        | (Except.error e, w) => (Except.error e, w)
        | (Except.ok _, w) =>
          match newAEAD O dk w with
          | (Except.error e, w) =>
            let w := ZeroLocked (some dkB) w
            let r := FreeLocked (some dkB) w
            (Except.error e, r.2)
          | (Except.ok aead, w) =>
            let w := ZeroLocked (some dkB) w
            let r := FreeLocked (some dkB) w
            let w := r.2
            match AllocateLocked O s.ciphertext.length w with
            | (Except.error e, w) => (Except.error e, w)
            | (Except.ok ptB, w) =>
              match aOpen M aead s.nonce s.ciphertext with
              | none =>
                let r := aDestroy aead w
                let w := r.2
                let r2 := FreeLocked (some ptB) w
                (Except.error Err.decryptFailed, r2.2)
              | some d =>
                let r := aDestroy aead w
                let w := r.2
                let w := match getCell w ptB with
                         | some c => if c.live then setCell w ptB ⟨d, true⟩ else w
                         | none => w
                (Except.ok ptB, w)

/-- Model of `Use` (`buffer.go` lines 221-234): the nil-callback check precedes
everything; otherwise decrypt, run the callback on the plaintext view,
and wipe-and-free the plaintext on every exit. -/
def Use (C : Config) (M : CryptoModel) (O : Oracle) (s : SecureBuffer)
    (fn : Option (Bytes → Option Err)) (w : World) : Option Err × World :=
  match fn with
  | none => (some Err.nilFunction, w)
  | some f =>
    match Decrypt C M O s w with
    | (Except.error e, w) => (some e, w)
    | (Except.ok ptB, w) =>
      let res := f (BytesView w (some ptB))
      let w := ZeroLocked (some ptB) w
      let r := FreeLocked (some ptB) w
      (res, r.2)

/-- Model of `DestroyAfter` (`buffer.go` lines 238-248): no-op once destroyed;
otherwise any previous timer is stopped and a fresh one armed. -/
def DestroyAfter (s : SecureBuffer) : SecureBuffer :=
  if s.destroyed then s
  else { s with timerArmed := true }

/-- Model of `Destroy` (`buffer.go` lines 251-302): immediate success when already
destroyed; otherwise stop the timer, optionally recheck the HMAC
(recording, not aborting on, a mismatch), then wipe and free the
envelope, mark destroyed and clear every field.  The release is modelled
as succeeding, so the combined error is the integrity error alone. -/
def Destroy (C : Config) (M : CryptoModel) (O : Oracle)
    (s : SecureBuffer) (w : World) : Option Err × SecureBuffer × World :=
  if s.destroyed then (none, s, w)
  else
    let s := { s with timerArmed := false }
    let fin := fun (bad : Bool) (w : World) =>
      let w := ZeroLocked s.mem w
      let r := FreeLocked s.mem w
      let s' : SecureBuffer :=
        { mem := none, salt := [], nonce := [], ciphertext := [], mac := []
          timerArmed := false, destroyed := true }
      ((if bad then some Err.integrityFailed else none), s', r.2)
    if C.integrityCheck then
      match newHMAC O (masterKeyBytes w) w with
      | (Except.error e, w) => (some e, s, w)
      | (Except.ok h, w) =>
        let h := hWrite h s.salt
        match AllocateLocked O 32 w with
        | (Except.error e, w) =>
          let r := hDestroy h w
          (some e, s, r.2)
        | (Except.ok dkB, w) =>
          let dk := hSum M h
          let w := writeRange w (some dkB) 0 dk
          let r := hDestroy h w
          let w := r.2
          match newHMAC O dk w with
          | (Except.error e, w) =>
            let w := ZeroLocked (some dkB) w
            let r2 := FreeLocked (some dkB) w
            (some e, s, r2.2)
          | (Except.ok hc, w) =>
            let hc := hWrite (hWrite hc s.nonce) s.ciphertext
            let bad := hSum M hc ≠ s.mac
            let r2 := hDestroy hc w
            let w := ZeroLocked (some dkB) r2.2
            let r3 := FreeLocked (some dkB) w
            fin (decide bad) r3.2
    else fin false w

/-! ### Concrete instantiations for evaluation

A minimal executable `CryptoModel` satisfying the AEAD/HMAC laws, and an
oracle on which every allocation and random fill succeeds.  These are
used by witnesses and counterexamples; the theorems themselves hold for
every model and oracle. -/

/-- An executable crypto model satisfying the laws. -/
def M0 : CryptoModel where
  hmacF := fun _ _ => List.replicate 32 0
  sealF := fun _ _ p => p ++ List.replicate 16 0
  openF := fun _ _ c => if 16 ≤ c.length then some (c.take (c.length - 16)) else none
  hmac_len := fun _ _ => by simp
  seal_len := fun _ _ _ => by simp
  open_seal := fun k n p => by
    simp [Nat.le_add_left, Nat.add_sub_cancel, List.take_left]

/-- The all-success environment. -/
def Oall : Oracle := ⟨fun _ => true, fun _ => true, fun _ _ => 0⟩

/-- The canonical process state right after a successful `Init`: one live
locked cell holding the 32 master-key bytes, arbitrary call counters. -/
def postInit (mk : Bytes) (a r : Nat) : World :=
  ⟨[⟨mk, true⟩], a, r, some 0, true⟩

/-- The process state after an `Init` attempt that failed before binding a
key: the `sync.Once` latch is consumed but no master key exists (the
failed attempt's cells are omitted; only the latch matters). -/
def postFailedInit (a r : Nat) : World :=
  ⟨[], a, r, none, true⟩

/-- Whether an `Except` result is a success. -/
def resultOk {α : Type} : Except Err α → Bool
  | Except.ok _ => true
  | Except.error _ => false

/-- An environment on which exactly the third allocation (the salt buffer,
when encrypting from a post-`Init` state with `allocN = 1`) fails. -/
def OsaltFail : Oracle := ⟨fun n => !(n == 2), fun _ => true, fun _ _ => 0⟩

/-- The encrypt-then-decrypt round trip recovers the plaintext.
(Irreducible so that applying round-trip lemmas does not make the
elaborator evaluate a whole encryption run.) -/
@[irreducible] def roundTrips (C : Config) (M : CryptoModel) (O : Oracle)
    (P : Bytes) (w : World) : Prop :=
  match EncryptToMemory C M O P w with
  | (Except.ok sb, _, w1) =>
    match Decrypt C M O sb w1 with
    | (Except.ok i, w2) => BytesView w2 (some i) = P
    | (Except.error _, _) => False
  | (Except.error _, _, _) => False

/-! ## Byte-range lemmas -/

theorem writeAt_exact (l v : Bytes) (h : v.length = l.length) :
    writeAt l 0 v = v := by
  simp [writeAt, h, List.drop_length]

theorem writeAt_replicate (v : Bytes) (n z : Nat) :
    writeAt (List.replicate n z) 0 v = v ++ List.replicate (n - v.length) z := by
  simp [writeAt, List.drop_replicate]

theorem writeAt_append_exact (a b v : Bytes) (h : v.length = a.length) :
    writeAt (a ++ b) 0 v = v ++ b := by
  simp [writeAt, h, List.drop_left]

theorem writeAt_append_ge (a b v : Bytes) (off : Nat) (h : a.length ≤ off) :
    writeAt (a ++ b) off v = a ++ writeAt b (off - a.length) v := by
  unfold writeAt
  rw [List.take_append_eq_append_take, List.drop_append_eq_append_drop,
      List.take_of_length_le h,
      List.drop_eq_nil_of_le (le_trans h (Nat.le_add_right _ _)),
      show off + v.length - a.length = off - a.length + v.length by omega]
  simp

theorem readAt_exact (l : Bytes) (n : Nat) (h : n = l.length) :
    readAt l 0 n = l := by
  simp [readAt, h]

theorem readAt_append_exact (a b : Bytes) (n : Nat) (h : n = a.length) :
    readAt (a ++ b) 0 n = a := by
  simp [readAt, h, List.take_left]

theorem readAt_append_ge (a b : Bytes) (off n : Nat) (h : a.length ≤ off) :
    readAt (a ++ b) off n = readAt b (off - a.length) n := by
  unfold readAt
  rw [List.drop_append_eq_append_drop, List.drop_eq_nil_of_le h]
  simp

set_option maxHeartbeats 2000000
set_option maxRecDepth 16000

theorem rndB_length (O : Oracle) (k n : Nat) : (rndB O k n).length = n := by
  simp [rndB]

/-- Tiling of the envelope region: writing the mac behind
`salt ++ nonce ++ ciphertext` fills the region exactly, and reading the
four ranges of the filled region returns the four fields. -/
theorem env_layout (s n c m : Bytes) (N : Nat)
    (hs : s.length = 16) (hn : n.length = 12) (hc : c.length = N + 16) (hm : m.length = 32) :
    writeAt (s ++ (n ++ (c ++ List.replicate (28 + (N + 16) - (N + 12)) 0)))
        (28 + (N + 16)) m = s ++ (n ++ (c ++ m)) ∧
    readAt (s ++ (n ++ (c ++ m))) 0 16 = s ∧
    readAt (s ++ (n ++ (c ++ m))) 16 12 = n ∧
    readAt (s ++ (n ++ (c ++ m))) 28 (N + 16) = c ∧
    readAt (s ++ (n ++ (c ++ m))) (28 + (N + 16)) 32 = m := by
  have hz : 28 + (N + 16) - (N + 12) = 32 := by omega
  refine ⟨?_, ?_, ?_, ?_, ?_⟩
  · rw [writeAt_append_ge _ _ _ _ (by omega), hs,
        show 28 + (N + 16) - 16 = 12 + (N + 16) by omega,
        writeAt_append_ge _ _ _ _ (by omega), hn,
        show 12 + (N + 16) - 12 = N + 16 by omega,
        writeAt_append_ge _ _ _ _ (by omega), hc, Nat.sub_self, hz,
        writeAt_replicate, hm, Nat.sub_self]
    simp
  · exact readAt_append_exact _ _ _ hs.symm
  · rw [readAt_append_ge _ _ _ _ (by omega), hs,
        show 16 - 16 = 0 by omega]
    exact readAt_append_exact _ _ _ hn.symm
  · rw [readAt_append_ge _ _ _ _ (by omega), hs,
        show 28 - 16 = 12 by omega,
        readAt_append_ge _ _ _ _ (by omega), hn, Nat.sub_self]
    exact readAt_append_exact _ _ _ hc.symm
  · rw [readAt_append_ge _ _ _ _ (by omega), hs,
        show 28 + (N + 16) - 16 = 12 + (N + 16) by omega,
        readAt_append_ge _ _ _ _ (by omega), hn,
        show 12 + (N + 16) - 12 = N + 16 by omega,
        readAt_append_ge _ _ _ _ (by omega), hc, Nat.sub_self]
    exact readAt_exact _ _ hm.symm

/-- Symbolic execution of a successful `EncryptToMemory` with the
integrity check on, from the canonical post-`Init` state, under an
environment where every allocation and random fill succeeds: the result,
the wiped caller slice, and the full final world. -/
theorem encrypt_run_int (M : CryptoModel) (O : Oracle) (zp : Bool) (P mk : Bytes) (a r : Nat)
    (hP : P ≠ []) (hA : O.allocOk = fun _ => true) (hR : O.randOk = fun _ => true) :
    EncryptToMemory ⟨zp, true⟩ M O P (postInit mk a r) =
      (Except.ok ⟨some 9, rndB O r 16, rndB O (r+1) 12,
         M.sealF (M.hmacF mk (rndB O r 16)) (rndB O (r+1) 12) P,
         M.hmacF (M.hmacF mk (rndB O r 16))
           (rndB O (r+1) 12 ++ M.sealF (M.hmacF mk (rndB O r 16)) (rndB O (r+1) 12) P),
         false, false⟩,
       List.replicate P.length 0,
       ⟨[⟨mk, true⟩,
         ⟨List.replicate P.length 0, false⟩,
         ⟨List.replicate 16 0, false⟩,
         ⟨List.replicate 2 0, false⟩,
         ⟨List.replicate 2 0, false⟩,
         ⟨List.replicate 2 0, false⟩,
         ⟨List.replicate 32 0, false⟩,
         ⟨List.replicate 2 0, false⟩,
         ⟨List.replicate 2 0, false⟩,
         ⟨rndB O r 16 ++ (rndB O (r+1) 12 ++
            (M.sealF (M.hmacF mk (rndB O r 16)) (rndB O (r+1) 12) P ++
            M.hmacF (M.hmacF mk (rndB O r 16))
              (rndB O (r+1) 12 ++ M.sealF (M.hmacF mk (rndB O r 16)) (rndB O (r+1) 12) P))),
          true⟩,
         ⟨List.replicate 2 0, false⟩,
         ⟨List.replicate 2 0, false⟩,
         ⟨List.replicate 2 0, false⟩],
        a + 12, r + 2, some 0, true⟩) := by
  have henv := env_layout (rndB O r 16) (rndB O (r+1) 12)
      (M.sealF (M.hmacF mk (rndB O r 16)) (rndB O (r+1) 12) P)
      (M.hmacF (M.hmacF mk (rndB O r 16))
        (rndB O (r+1) 12 ++ M.sealF (M.hmacF mk (rndB O r 16)) (rndB O (r+1) 12) P))
      P.length (rndB_length O r 16) (rndB_length O (r+1) 12) (M.seal_len _ _ _) (M.hmac_len _ _)
  simp [EncryptToMemory, postInit, AllocateLocked, FreeLocked, ZeroLocked, fillRandomRange,
    Init, newHMAC, hWrite, hSum, hDestroy, newAEAD, aSeal, aDestroy, aOverhead,
    saltLen, nonceLen, macLen, sha256StateSize, hmacStructSize, aesStateSize, gcmStateSize,
    getCell, setCell, writeRange, readRange, BytesView, masterKeyBytes,
    hA, hR, hP, rndB_length, M.hmac_len, M.seal_len,
    writeAt_exact, writeAt_replicate, writeAt_append_exact, writeAt_append_ge,
    readAt_exact, readAt_append_exact, readAt_append_ge,
    List.get?, List.set, Nat.le_zero, List.length_eq_zero]
  rw [henv.1]
  exact ⟨⟨henv.2.1, henv.2.2.1, henv.2.2.2.1, henv.2.2.2.2⟩, rfl⟩

/-- Symbolic execution of a successful `EncryptToMemory` with the
integrity check off (see `encrypt_run_int`). -/
theorem encrypt_run_noint (M : CryptoModel) (O : Oracle) (zp : Bool) (P mk : Bytes) (a r : Nat)
    (hP : P ≠ []) (hA : O.allocOk = fun _ => true) (hR : O.randOk = fun _ => true) :
    EncryptToMemory ⟨zp, false⟩ M O P (postInit mk a r) =
      (Except.ok ⟨some 9, rndB O r 16, rndB O (r+1) 12,
         M.sealF (M.hmacF mk (rndB O r 16)) (rndB O (r+1) 12) P,
         [], false, false⟩,
       List.replicate P.length 0,
       ⟨[⟨mk, true⟩,
         ⟨List.replicate P.length 0, false⟩,
         ⟨List.replicate 16 0, false⟩,
         ⟨List.replicate 2 0, false⟩,
         ⟨List.replicate 2 0, false⟩,
         ⟨List.replicate 2 0, false⟩,
         ⟨List.replicate 32 0, false⟩,
         ⟨List.replicate 2 0, false⟩,
         ⟨List.replicate 2 0, false⟩,
         ⟨rndB O r 16 ++ (rndB O (r+1) 12 ++
            M.sealF (M.hmacF mk (rndB O r 16)) (rndB O (r+1) 12) P),
          true⟩],
        a + 9, r + 2, some 0, true⟩) := by
  simp [EncryptToMemory, postInit, AllocateLocked, FreeLocked, ZeroLocked, fillRandomRange,
    Init, newHMAC, hWrite, hSum, hDestroy, newAEAD, aSeal, aDestroy, aOverhead,
    saltLen, nonceLen, macLen, sha256StateSize, hmacStructSize, aesStateSize, gcmStateSize,
    getCell, setCell, writeRange, readRange, BytesView, masterKeyBytes,
    hA, hR, hP, rndB_length, M.hmac_len, M.seal_len,
    writeAt_exact, writeAt_replicate, writeAt_append_exact, writeAt_append_ge,
    readAt_exact, readAt_append_exact, readAt_append_ge,
    List.get?, List.set, Nat.le_zero, List.length_eq_zero]
  omega

/-- The round trip holds for every non-empty plaintext from the canonical
post-`Init` state (shared by the round-trip claims). -/
theorem roundTrips_postInit (C : Config) (M : CryptoModel) (O : Oracle)
    (P mk : Bytes) (a r : Nat) (hP : P ≠ [])
    (hA : O.allocOk = fun _ => true) (hR : O.randOk = fun _ => true) :
    roundTrips C M O P (postInit mk a r) := by
  obtain ⟨zp, ic⟩ := C
  unfold roundTrips
  cases ic
  · rw [encrypt_run_noint M O zp P mk a r hP hA hR]
    simp [Decrypt, AllocateLocked, FreeLocked, ZeroLocked, fillRandomRange,
      newHMAC, hWrite, hSum, hDestroy, newAEAD, aSeal, aOpen, aDestroy, aOverhead,
      saltLen, nonceLen, macLen, sha256StateSize, hmacStructSize, aesStateSize, gcmStateSize,
      getCell, setCell, writeRange, readRange, BytesView, masterKeyBytes,
      hA, hR, rndB_length, M.hmac_len, M.seal_len, M.open_seal,
      writeAt_exact, writeAt_replicate, writeAt_append_exact, writeAt_append_ge,
      readAt_exact, readAt_append_exact, readAt_append_ge,
      List.get?, List.set, Nat.le_zero, List.length_eq_zero]
  · rw [encrypt_run_int M O zp P mk a r hP hA hR]
    simp [Decrypt, AllocateLocked, FreeLocked, ZeroLocked, fillRandomRange,
      newHMAC, hWrite, hSum, hDestroy, newAEAD, aSeal, aOpen, aDestroy, aOverhead,
      saltLen, nonceLen, macLen, sha256StateSize, hmacStructSize, aesStateSize, gcmStateSize,
      getCell, setCell, writeRange, readRange, BytesView, masterKeyBytes,
      hA, hR, rndB_length, M.hmac_len, M.seal_len, M.open_seal,
      writeAt_exact, writeAt_replicate, writeAt_append_exact, writeAt_append_ge,
      readAt_exact, readAt_append_exact, readAt_append_ge,
      List.get?, List.set, Nat.le_zero, List.length_eq_zero]

/-! ## Claim theorems -/

/-- C9: calling `Use` with a nil callback returns the nil-function error
immediately, leaving the world untouched — no decryption, no allocation,
no plaintext region. -/
theorem Use_nil_callback (C : Config) (M : CryptoModel) (O : Oracle)
    (s : SecureBuffer) (w : World) :
    Use C M O s none w = (some Err.nilFunction, w) := rfl

/-- C10: every `LockedBuffer` operation is total on the nil handle and on
a handle whose pointer has been cleared: `Bytes` yields nil, `ZeroLocked`
is a no-op, and `FreeLocked` reports success without touching anything. -/
theorem lockedBuffer_ops_total (w : World) (i : Nat) (c : LockedCell)
    (hc : getCell w i = some c) (hl : c.live = false) :
    BytesView w none = [] ∧
    ZeroLocked none w = w ∧
    FreeLocked none w = (none, w) ∧
    BytesView w (some i) = [] ∧
    ZeroLocked (some i) w = w ∧
    FreeLocked (some i) w = (none, w) := by
  refine ⟨rfl, rfl, rfl, ?_, ?_, ?_⟩ <;> simp [BytesView, ZeroLocked, FreeLocked, hc, hl]

/-- C10 witness: the operations on the nil handle and on a released cell
of a concrete world. -/
theorem lockedBuffer_ops_total_witness :
    getCell ⟨[⟨[], false⟩], 1, 0, none, false⟩ 0 = some ⟨[], false⟩ ∧
    (⟨[], false⟩ : LockedCell).live = false ∧
    BytesView ⟨[⟨[], false⟩], 1, 0, none, false⟩ (some 0) = [] :=
  ⟨rfl, rfl, (lockedBuffer_ops_total ⟨[⟨[], false⟩], 1, 0, none, false⟩ 0 ⟨[], false⟩ rfl rfl).2.2.2.1⟩

/-- Any `Destroy` call that reports success leaves the buffer with the
`destroyed` flag set (helper for the terminality theorem). -/
theorem Destroy_none_destroyed (C : Config) (M : CryptoModel) (O : Oracle)
    (s : SecureBuffer) (w : World) :
    (Destroy C M O s w).1 = none → ((Destroy C M O s w).2.1).destroyed = true := by
  unfold Destroy
  by_cases h0 : s.destroyed
  · intro _; simp [h0]
  · simp only [h0, Bool.false_eq_true, if_false]
    repeat' split
    all_goals intro h
    all_goals simp_all

/-- C7: the `Destroyed` state is terminal.  On a destroyed buffer a
further `Destroy` returns immediate success and changes nothing,
`Decrypt` and `Use` fail with the use-after-destroy error without
touching the world, and `DestroyAfter` is a no-op; moreover any
`Destroy` call that reports success leaves the buffer destroyed, so the
state is absorbing under every interleaving of these operations. -/
theorem destroyed_is_terminal (C : Config) (M : CryptoModel) (O : Oracle)
    (s : SecureBuffer) (w : World) (hd : s.destroyed = true) :
    Destroy C M O s w = (none, s, w) ∧
    Decrypt C M O s w = (Except.error Err.useAfterDestroy, w) ∧
    (∀ f, Use C M O s (some f) w = (some Err.useAfterDestroy, w)) ∧
    DestroyAfter s = s ∧
    (∀ (s₀ : SecureBuffer) (w₀ : World),
       (Destroy C M O s₀ w₀).1 = none →
       ((Destroy C M O s₀ w₀).2.1).destroyed = true) := by
  refine ⟨?_, ?_, ?_, ?_, ?_⟩
  · simp [Destroy, hd]
  · simp [Decrypt, hd]
  · intro f; simp [Use, Decrypt, hd]
  · simp [DestroyAfter, hd]
  · intro s₀ w₀ h
    exact Destroy_none_destroyed C M O s₀ w₀ h

/-- C7 witness: a concrete destroyed buffer in a concrete world. -/
theorem destroyed_is_terminal_witness :
    (⟨none, [], [], [], [], false, true⟩ : SecureBuffer).destroyed = true ∧
    Destroy ⟨false, true⟩ M0 Oall ⟨none, [], [], [], [], false, true⟩ ⟨[], 0, 0, none, false⟩
      = (none, ⟨none, [], [], [], [], false, true⟩, ⟨[], 0, 0, none, false⟩) :=
  ⟨rfl, (destroyed_is_terminal ⟨false, true⟩ M0 Oall _ _ rfl).1⟩

/-- C2: the code contradicts the claim.  After an `Init` attempt that
failed (the `sync.Once` latch is consumed but no master key was bound),
`Init` is a successful no-op, so a subsequent `EncryptToMemory` does not
propagate any error: it completes successfully with the master key still
absent, encrypting under a key derived from the nil master key. -/
theorem encrypt_ok_after_failed_init :
    (postFailedInit 1 1).masterIdx = none ∧
    Init Oall (postFailedInit 1 1) = (none, postFailedInit 1 1) ∧
    resultOk (EncryptToMemory ⟨false, true⟩ M0 Oall [1] (postFailedInit 1 1)).1 = true ∧
    (EncryptToMemory ⟨false, true⟩ M0 Oall [1] (postFailedInit 1 1)).2.2.masterIdx = none :=
  ⟨rfl, rfl, rfl, rfl⟩

/-- C3 counterexample: with `zero_plaintext = false` a successful
`EncryptToMemory` still modifies the caller's source — `Zero(data)` runs
unconditionally, so the source `[7]` is zeroed. -/
theorem encrypt_modifies_source_with_flag_off :
    resultOk (EncryptToMemory ⟨false, true⟩ M0 Oall [7] (postInit (List.replicate 32 5) 1 1)).1 = true ∧
    (EncryptToMemory ⟨false, true⟩ M0 Oall [7] (postInit (List.replicate 32 5) 1 1)).2.1 ≠ [7] :=
  ⟨rfl, by decide⟩

/-- C4: the code contradicts the claim.  When the salt allocation fails,
`EncryptToMemory` returns the error without wiping or releasing the
locked region that already holds the plaintext copy: cell 1 is still
live and still contains the plaintext byte `9`. -/
theorem encrypt_salt_alloc_fail_leaks_plaintext :
    (EncryptToMemory ⟨false, true⟩ M0 OsaltFail [9] (postInit (List.replicate 32 5) 1 1)).1
      = Except.error Err.lockFailed ∧
    getCell (EncryptToMemory ⟨false, true⟩ M0 OsaltFail [9] (postInit (List.replicate 32 5) 1 1)).2.2 1
      = some ⟨[9], true⟩ :=
  ⟨rfl, rfl⟩

/-- C5 counterexample: the empty plaintext is rejected — `allocateLocked`
requires a positive size, so `EncryptToMemory` of the empty slice fails
with the invalid-size error instead of succeeding. -/
theorem encrypt_empty_plaintext_rejected :
    (EncryptToMemory ⟨false, true⟩ M0 Oall [] (postInit (List.replicate 32 5) 1 1)).1
      = Except.error Err.invalidSize := rfl

/-- C1: for every non-empty plaintext `P` of length at most 64KiB (with
the master key initialized and an environment where allocation and
randomness succeed), `EncryptToMemory P` succeeds and a subsequent
`Decrypt` on the returned `SecureBuffer` yields a locked region whose
bytes equal `P` exactly — for every configuration, crypto model,
environment, master key and random stream. -/
theorem encrypt_decrypt_roundtrip (C : Config) (M : CryptoModel) (O : Oracle)
    (P mk : Bytes) (a r : Nat) (hP : P ≠ []) (_hLen : P.length ≤ 65536)
    (hA : O.allocOk = fun _ => true) (hR : O.randOk = fun _ => true) :
    roundTrips C M O P (postInit mk a r) :=
  roundTrips_postInit C M O P mk a r hP hA hR

/-- C1 witness: the round trip on the concrete plaintext `[7]`. -/
theorem encrypt_decrypt_roundtrip_witness :
    (([7] : Bytes) ≠ []) ∧ ([7] : Bytes).length ≤ 65536 ∧
    Oall.allocOk = (fun _ => true) ∧ Oall.randOk = (fun _ => true) ∧
    roundTrips ⟨false, true⟩ M0 Oall [7] (postInit (List.replicate 32 5) 1 1) :=
  ⟨by decide, by decide, rfl, rfl,
   encrypt_decrypt_roundtrip ⟨false, true⟩ M0 Oall [7] (List.replicate 32 5) 1 1
     (by decide) (by decide) rfl rfl⟩

/-- C5 (amended): the empty plaintext is not accepted — `allocateLocked`
rejects size zero, so `encrypt_to_memory` of the empty slice fails with
the invalid-size error; the encrypt/decrypt round trip holds exactly for
the non-empty plaintexts up to 64KiB. -/
theorem encrypt_empty_fails_nonempty_roundtrips (C : Config) (M : CryptoModel)
    (O : Oracle) (P mk : Bytes) (a r : Nat) (_hLen : P.length ≤ 65536)
    (hA : O.allocOk = fun _ => true) (hR : O.randOk = fun _ => true) :
    (P = [] →
      (EncryptToMemory C M O P (postInit mk a r)).1 = Except.error Err.invalidSize) ∧
    (P ≠ [] → roundTrips C M O P (postInit mk a r)) := by
  constructor
  · intro h
    subst h
    simp [EncryptToMemory, postInit, AllocateLocked, Init]
  · intro h
    exact roundTrips_postInit C M O P mk a r h hA hR

/-- C5 witness: both conjuncts at concrete inputs — the empty slice is
rejected and `[7]` round-trips. -/
theorem encrypt_empty_fails_nonempty_roundtrips_witness :
    (([] : Bytes).length ≤ 65536 ∧
     (EncryptToMemory ⟨false, true⟩ M0 Oall [] (postInit (List.replicate 32 5) 1 1)).1
       = Except.error Err.invalidSize) ∧
    (([7] : Bytes).length ≤ 65536 ∧
     roundTrips ⟨false, true⟩ M0 Oall [7] (postInit (List.replicate 32 5) 1 1)) :=
  ⟨⟨by decide,
    (encrypt_empty_fails_nonempty_roundtrips ⟨false, true⟩ M0 Oall [] (List.replicate 32 5)
      1 1 (by decide) rfl rfl).1 rfl⟩,
   ⟨by decide,
    (encrypt_empty_fails_nonempty_roundtrips ⟨false, true⟩ M0 Oall [7] (List.replicate 32 5)
      1 1 (by decide) rfl rfl).2 (by decide)⟩⟩

/-- C8: for every plaintext of length `N` the envelope region produced by
a successful `EncryptToMemory` has exact length
`16 + 12 + (N + 16) + (32 if integrity_check else 0)`, with the salt at
offsets `[0,16)`, the nonce at `[16,28)`, the ciphertext-with-tag at
`[28, 28+N+16)` and, when integrity is on, the 32-byte mac as the final
bytes. -/
theorem envelope_layout_thm (M : CryptoModel) (O : Oracle) (zp ic : Bool)
    (P mk : Bytes) (a r : Nat) (hP : P ≠ [])
    (hA : O.allocOk = fun _ => true) (hR : O.randOk = fun _ => true) :
    ∃ sb dz w1, EncryptToMemory ⟨zp, ic⟩ M O P (postInit mk a r) = (Except.ok sb, dz, w1) ∧
      (BytesView w1 sb.mem).length
        = saltLen + nonceLen + (P.length + 16) + (if ic then macLen else 0) ∧
      readAt (BytesView w1 sb.mem) 0 saltLen = sb.salt ∧
      readAt (BytesView w1 sb.mem) saltLen nonceLen = sb.nonce ∧
      readAt (BytesView w1 sb.mem) (saltLen + nonceLen) (P.length + 16) = sb.ciphertext ∧
      sb.ciphertext.length = P.length + 16 ∧
      (ic = true →
        readAt (BytesView w1 sb.mem) (saltLen + nonceLen + (P.length + 16)) macLen = sb.mac ∧
        sb.mac.length = macLen) := by
  have henv := env_layout (rndB O r 16) (rndB O (r+1) 12)
      (M.sealF (M.hmacF mk (rndB O r 16)) (rndB O (r+1) 12) P)
      (M.hmacF (M.hmacF mk (rndB O r 16))
        (rndB O (r+1) 12 ++ M.sealF (M.hmacF mk (rndB O r 16)) (rndB O (r+1) 12) P))
      P.length (rndB_length O r 16) (rndB_length O (r+1) 12) (M.seal_len _ _ _) (M.hmac_len _ _)
  cases ic
  · refine ⟨_, _, _, encrypt_run_noint M O zp P mk a r hP hA hR, ?_⟩
    simp only [BytesView, getCell, List.get?, saltLen, nonceLen, macLen, if_true, if_false]
    refine ⟨?_, ?_, ?_, ?_, ?_, ?_⟩
    · simp [rndB_length, M.seal_len, M.hmac_len]
      omega
    · exact readAt_append_exact _ _ _ (rndB_length O r 16).symm
    · rw [readAt_append_ge _ _ _ _ (by rw [rndB_length]), rndB_length,
          Nat.sub_self]
      exact readAt_append_exact _ _ _ (rndB_length O (r+1) 12).symm
    · rw [readAt_append_ge _ _ _ _ (by rw [rndB_length]; omega), rndB_length,
          show 16 + 12 - 16 = 12 by omega,
          readAt_append_ge _ _ _ _ (by rw [rndB_length]), rndB_length, Nat.sub_self]
      exact readAt_exact _ _ (M.seal_len _ _ _).symm
    · exact M.seal_len _ _ _
    · intro h
      cases h
  · refine ⟨_, _, _, encrypt_run_int M O zp P mk a r hP hA hR, ?_⟩
    simp only [BytesView, getCell, List.get?, saltLen, nonceLen, macLen, if_true, if_false]
    refine ⟨?_, ?_, ?_, ?_, ?_, ?_⟩
    · simp [rndB_length, M.seal_len, M.hmac_len]
      omega
    · simpa using henv.2.1
    · simpa using henv.2.2.1
    · simpa [show (16:Nat) + 12 = 28 by omega] using henv.2.2.2.1
    · exact M.seal_len _ _ _
    · intro _
      exact ⟨by simpa [show (16:Nat) + 12 = 28 by omega] using henv.2.2.2.2,
             M.hmac_len _ _⟩

/-- C8 witness: the layout facts at the concrete plaintext `[7]`. -/
theorem envelope_layout_thm_witness :
    (([7] : Bytes) ≠ []) ∧
    ∃ sb dz w1,
      EncryptToMemory ⟨false, true⟩ M0 Oall [7] (postInit (List.replicate 32 5) 1 1)
        = (Except.ok sb, dz, w1) ∧
      (BytesView w1 sb.mem).length
        = saltLen + nonceLen + (([7] : Bytes).length + 16) + (if true then macLen else 0) ∧
      readAt (BytesView w1 sb.mem) 0 saltLen = sb.salt ∧
      readAt (BytesView w1 sb.mem) saltLen nonceLen = sb.nonce ∧
      readAt (BytesView w1 sb.mem) (saltLen + nonceLen) (([7] : Bytes).length + 16)
        = sb.ciphertext ∧
      sb.ciphertext.length = ([7] : Bytes).length + 16 ∧
      (true = true →
        readAt (BytesView w1 sb.mem) (saltLen + nonceLen + (([7] : Bytes).length + 16)) macLen
          = sb.mac ∧
        sb.mac.length = macLen) :=
  ⟨by decide,
   envelope_layout_thm M0 Oall false true [7] (List.replicate 32 5) 1 1 (by decide) rfl rfl⟩

/-- C6: with integrity on, when the recomputed HMAC over
`nonce ‖ ciphertext` under the re-derived per-buffer key disagrees with
the stored mac, `Decrypt` fails with the integrity error, wipes and
releases the DK region (the 32-byte cell ends zeroed and dead), allocates
no plaintext region (every cell it created is dead), and leaves the
master cell and the buffer itself untouched. -/
theorem decrypt_integrity_mismatch (M : CryptoModel) (O : Oracle) (zp : Bool)
    (sb : SecureBuffer) (mk : Bytes) (a r : Nat)
    (hd : sb.destroyed = false)
    (hbad : M.hmacF (M.hmacF mk sb.salt) (sb.nonce ++ sb.ciphertext) ≠ sb.mac)
    (hA : O.allocOk = fun _ => true) :
    Decrypt ⟨zp, true⟩ M O sb (postInit mk a r) =
      (Except.error Err.integrityFailed,
       ⟨[⟨mk, true⟩,
         ⟨List.replicate 2 0, false⟩,
         ⟨List.replicate 2 0, false⟩,
         ⟨List.replicate 2 0, false⟩,
         ⟨List.replicate 32 0, false⟩,
         ⟨List.replicate 2 0, false⟩,
         ⟨List.replicate 2 0, false⟩,
         ⟨List.replicate 2 0, false⟩],
        a + 7, r, some 0, true⟩) := by
  simp [Decrypt, postInit, AllocateLocked, FreeLocked, ZeroLocked,
    newHMAC, hWrite, hSum, hDestroy, newAEAD, aOverhead,
    saltLen, nonceLen, macLen, sha256StateSize, hmacStructSize,
    getCell, setCell, writeRange, readRange, BytesView, masterKeyBytes,
    hA, hd, hbad, rndB_length, M.hmac_len,
    writeAt_exact, writeAt_replicate,
    List.get?, List.set, Nat.le_zero]

/-- C6 witness: a concrete buffer whose stored mac disagrees with the
recomputed one. -/
theorem decrypt_integrity_mismatch_witness :
    (⟨some 0, List.replicate 16 0, List.replicate 12 0, List.replicate 17 0,
      List.replicate 32 1, false, false⟩ : SecureBuffer).destroyed = false ∧
    M0.hmacF (M0.hmacF (List.replicate 32 5) (List.replicate 16 0))
        (List.replicate 12 0 ++ List.replicate 17 0) ≠ List.replicate 32 1 ∧
    (Decrypt ⟨false, true⟩ M0 Oall
      ⟨some 0, List.replicate 16 0, List.replicate 12 0, List.replicate 17 0,
       List.replicate 32 1, false, false⟩ (postInit (List.replicate 32 5) 1 1)).1
      = Except.error Err.integrityFailed :=
  ⟨rfl, by decide,
   by rw [decrypt_integrity_mismatch M0 Oall false
       ⟨some 0, List.replicate 16 0, List.replicate 12 0, List.replicate 17 0,
        List.replicate 32 1, false, false⟩ (List.replicate 32 5) 1 1 rfl (by decide) rfl]⟩

/-- C3 (amended): `EncryptToMemory` wipes the caller-provided source
unconditionally — on every successful encrypt the returned source slice
is all zeroes, independent of `zero_plaintext` (the flag only adds a
further `ZeroLocked` of the locked source inside `EncryptLocked`). -/
theorem encrypt_wipes_source (C : Config) (M : CryptoModel) (O : Oracle)
    (data : Bytes) (w : World) :
    ∀ sb b w1, EncryptToMemory C M O data w = (Except.ok sb, b, w1) →
      b = List.replicate data.length 0 := by
  intro sb b w1 h
  revert h
  unfold EncryptToMemory
  repeat' split
  all_goals intro h
  iterate 16 (all_goals try split at h
              all_goals try simp_all)

/-- C3 amended-claim witness: the wipe at the concrete source `[7]` with
`zero_plaintext = false`. -/
theorem encrypt_wipes_source_witness :
    (EncryptToMemory ⟨false, true⟩ M0 Oall [7] (postInit (List.replicate 32 5) 1 1)).2.1
      = List.replicate 1 0 :=
  encrypt_wipes_source ⟨false, true⟩ M0 Oall [7] (postInit (List.replicate 32 5) 1 1)
    _ _ _ rfl

end Mlocker
